import Mathlib

/-!
Shallow embedding of `mattermost-tldr` (Mattermost digest exporter) in Lean 4,
with theorems settling the specification claims.

Source files embedded:
* `src/mattermost_tldr/client.py` — pagination (`get_posts_in_range`),
  username cache (`get_username`), DM naming (`dm_display_name`);
* `src/mattermost_tldr/render.py` — per-day thread rendering
  (`render_post`, the day loop of `render_channel_markdown`);
* `src/mattermost_tldr/cli.py` — date-range resolution
  (`date_range_from_args` plus the window computation in `main`),
  digest concatenation separator;
* `src/mattermost_tldr/summary.py` — `run_ai_summary` exit behaviour.

Strings that the code manipulates character-by-character are modelled as
`List Char`; opaque tokens (ids, usernames) stay `String`.  Python string
builtins (`str.split`, `str.join`, `str.strip`, `str.splitlines`,
`str.replace(old, new, 1)`) are modelled below with the same semantics
for the (non-empty) separators the program uses.
-/

namespace MattermostTldr

/-! ## Definitions

### Python string primitives over `List Char` -/

/-- Whitespace as stripped by Python's `str.strip()` (ASCII subset; the
program only ever strips spaces, tabs, CR and LF). -/
def pyIsSpace (c : Char) : Bool :=
  c = ' ' || c = '\n' || c = '\t' || c = '\r'

/-- `s.strip()`: remove leading and trailing whitespace. -/
def pyStrip (s : List Char) : List Char :=
  ((s.dropWhile pyIsSpace).reverse.dropWhile pyIsSpace).reverse

/-- Helper for `splitLines`: accumulates the current line (reversed). -/
def splitLinesGo (acc : List Char) : List Char → List (List Char)
  | [] => [acc.reverse]
  | '\n' :: rest =>
    if rest = [] then [acc.reverse] else acc.reverse :: splitLinesGo [] rest
  | c :: rest => splitLinesGo (c :: acc) rest

/-- `s.splitlines()` for newline-delimited text: splits on `'\n'`,
without a trailing empty line, and `[]` on the empty string. -/
def splitLines (s : List Char) : List (List Char) :=
  if s = [] then [] else splitLinesGo [] s

/-- `sep.join(xs)`. -/
def pyJoin (sep : List Char) : List (List Char) → List Char
  | [] => []
  | [x] => x
  | x :: y :: xs => x ++ sep ++ pyJoin sep (y :: xs)

/-- Index of the leftmost occurrence of `sep` in `s` (as in `str.find`). -/
def findOcc (sep : List Char) : List Char → Option Nat
  | [] => if sep.isPrefixOf ([] : List Char) then some 0 else none
  | c :: s =>
    if sep.isPrefixOf (c :: s) then some 0 else (findOcc sep s).map (· + 1)

/-- Fuel-indexed worker for `splitOnSep`; the fuel only bounds the number of
separator occurrences consumed, `splitOnSep` always supplies enough. -/
def splitAux (sep : List Char) : Nat → List Char → List (List Char)
  | 0, s => [s]
  | fuel + 1, s =>
    match findOcc sep s with
    | none => [s]
    | some i => s.take i :: splitAux sep fuel (s.drop (i + sep.length))

/-- `s.split(sep)` for a non-empty separator `sep` (Python rejects an empty
separator; the program only splits on `"\n\n---\n\n"` and `"__"`). -/
def splitOnSep (sep s : List Char) : List (List Char) :=
  splitAux sep s.length s

/-- `s.replace(old, new, 1)`: replace the leftmost occurrence only. -/
def replaceFirst (old new s : List Char) : List Char :=
  match findOcc old s with
  | none => s
  | some i => s.take i ++ new ++ s.drop (i + old.length)

/-! ### The digest separator (cli.py line 797: the join of `all_markdowns`) -/

/-- The fixed separator between per-channel markdown blocks in the digest. -/
def digestSep : List Char := "\n\n---\n\n".toList

/-- The conditions on a render under which the digest split is exact:
the separator occurs nowhere inside it, and it does not end with a string
that completes a separator occurrence across the join boundary
(`digestSep.take 5 = "\n\n---"` and `digestSep.take 6 = "\n\n---\n"`). -/
def boundaryClean (r : List Char) : Prop :=
  ¬ digestSep <:+: r ∧ ¬ digestSep.take 5 <:+ r ∧ ¬ digestSep.take 6 <:+ r

instance (r : List Char) : Decidable (boundaryClean r) := by
  unfold boundaryClean
  infer_instance

/-- A concrete "render" containing the digest separator, as every real
output of `render_channel_markdown` does (its header ends with the lines
`"", "---", ""` followed by a day heading, which join to
`"\n\n---\n\n"`, render.py lines 79–83). -/
def badRender : List Char := "x\n\n---\n\ny".toList

/-! ### Data model (spec §3): posts and pagination entries -/

/-- A Mattermost post as used by this program.  `root_id = ""` models both
an absent and an empty `root_id` (the code reads `post.get("root_id", "")`
and tests truthiness). -/
structure Post where
  id : String
  user_id : String
  create_at : Int
  message : List Char
  root_id : String
deriving DecidableEq

/-- One entry of a remote page: an id from the page's `order` list together
with the id→post map's value for it (`none` models an id missing from the
map, which `get_posts_in_range` skips silently). -/
structure Entry where
  id : String
  post : Option Post
deriving DecidableEq

/-! ### Pagination (client.py `get_posts_in_range`, lines 119–166)

The remote channel history is modelled as the list of page entries in the
order the cursor walk visits them (newest first): each iteration's page is
`remaining.take per_page`, and setting the cursor `before = order[-1]`
yields the entries strictly after that page, i.e. `remaining.drop per_page`.
This is exactly the claims' assumption that pages are returned newest-first
and that each cursor request returns strictly older posts. -/

/-- `per_page = 200` (client.py line 132). -/
def per_page : Nat := 200

/-- The posts of a page that resolve through the id→post map; entries whose
id the map lacks are skipped (`if post is None: continue`). -/
def resolvePage (order : List Entry) : List Post :=
  order.filterMap Entry.post

/-- The running minimum `oldest_ts_in_batch` over a page's resolvable posts
(client.py lines 146–154). -/
def oldestTs (ps : List Post) : Option Int :=
  ps.foldl
    (fun acc p =>
      match acc with
      | none => some p.create_at
      | some t => some (min t p.create_at))
    none

/-- `after_ts <= ts <= before_ts` (client.py line 155). -/
def inWindow (after before : Int) (p : Post) : Bool :=
  decide (after ≤ p.create_at) && decide (p.create_at ≤ before)

/-- The stop test of client.py line 158:
`oldest_ts_in_batch is not None and oldest_ts_in_batch < after_ts`. -/
def stopOldest (o : Option Int) (after : Int) : Bool :=
  match o with
  | none => false
  | some t => decide (t < after)

/-- The collection loop of `get_posts_in_range` (before the final sort):
one recursive step per page request.  Each step requests the page
`order = remaining.take per_page`, breaks on an empty `order`, collects the
resolvable posts inside the window, and then applies the two stop
conditions (minimum timestamp below `after_ts`; short page) before moving
the cursor, i.e. recursing on `remaining.drop per_page`. -/
def fetchLoop (after before : Int) (remaining : List Entry) : List Post :=
  if h : remaining.take per_page = [] then []
  else if stopOldest (oldestTs (resolvePage (remaining.take per_page))) after then
    (resolvePage (remaining.take per_page)).filter (inWindow after before)
  else if (remaining.take per_page).length < per_page then
    (resolvePage (remaining.take per_page)).filter (inWindow after before)
  else
    (resolvePage (remaining.take per_page)).filter (inWindow after before) ++
      fetchLoop after before (remaining.drop per_page)
termination_by remaining.length
decreasing_by
  simp only [List.length_drop]
  have hne : remaining ≠ [] := by
    intro he
    rw [he] at h
    simp at h
  have h1 : 0 < remaining.length := List.length_pos.mpr hne
  have h2 : 0 < per_page := by norm_num [per_page]
  omega

/-- The sequence of pages observed by the loop, one element per HTTP page
request (instrumentation of the same control flow as `fetchLoop`). -/
def fetchTrace (after : Int) (remaining : List Entry) : List (List Entry) :=
  if h : remaining.take per_page = [] then [remaining.take per_page]
  else if stopOldest (oldestTs (resolvePage (remaining.take per_page))) after then
    [remaining.take per_page]
  else if (remaining.take per_page).length < per_page then
    [remaining.take per_page]
  else remaining.take per_page :: fetchTrace after (remaining.drop per_page)
termination_by remaining.length
decreasing_by
  simp only [List.length_drop]
  have hne : remaining ≠ [] := by
    intro he
    rw [he] at h
    simp at h
  have h1 : 0 < remaining.length := List.length_pos.mpr hne
  have h2 : 0 < per_page := by norm_num [per_page]
  omega

/-- `get_posts_in_range`: collect, then
`sorted(posts, key=lambda p: p["create_at"])` (client.py line 166). -/
def get_posts_in_range (after before : Int) (remaining : List Entry) : List Post :=
  (fetchLoop after before remaining).mergeSort
    (fun a b => decide (a.create_at ≤ b.create_at))

/-! ### Rendering (render.py `render_post` and the day loop of
`render_channel_markdown`, lines 32–49 and 94–118)

The username lookup is abstracted as a pure function `uname`
(`client.get_username` — its cache behaviour is modelled separately for C7
and is observationally a pure map during a render). -/

/-- Two-digit zero-padded number, as `strftime` renders hours/minutes. -/
def pad2 (n : Int) : List Char :=
  if n < 10 then '0' :: (toString n).toList else (toString n).toList

/-- `dt.strftime("%H:%M")` for the UTC datetime of an epoch-millisecond
timestamp (render.py `ts_to_datetime` + `format_time`). -/
def format_time (ts : Int) : List Char :=
  pad2 ((ts / 3600000) % 24) ++ [':'] ++ pad2 ((ts / 60000) % 60)

/-- `render_post(post, client, indent)`: strip the message, drop
whitespace-only lines, return `""` if nothing remains, otherwise prefix
with `{indent}**{username}** [{HH:MM}]` and lay out single- or multi-line
bodies (render.py lines 32–49). -/
def render_post (uname : String → String) (post : Post) (indent : List Char) :
    List Char :=
  let username := uname post.user_id
  let m1 := pyStrip post.message
  let m2 := pyJoin ['\n'] ((splitLines m1).filter (fun line => !(pyStrip line).isEmpty))
  if m2 = [] then []
  else
    let pfx := indent ++ "**".toList ++ username.toList ++ "** [".toList ++
      format_time post.create_at ++ "]".toList
    match splitLines m2 with
    | [l] => pfx ++ ": ".toList ++ l
    | lines =>
      pfx ++ ":\n".toList ++ indent ++ "  ".toList ++
        pyJoin ('\n' :: (indent ++ "  ".toList)) lines

/-- `defaultdict(list)` bucket append: `replies[root_id].append(post)`. -/
def dictAppend (d : List (String × List Post)) (k : String) (p : Post) :
    List (String × List Post) :=
  match d with
  | [] => [(k, [p])]
  | (k2, v) :: rest =>
    if k2 = k then (k2, v ++ [p]) :: rest else (k2, v) :: dictAppend rest k p

/-- `replies.get(post["id"], [])`. -/
def dictGetD (d : List (String × List Post)) (k : String) : List Post :=
  match d with
  | [] => []
  | (k2, v) :: rest => if k2 = k then v else dictGetD rest k

/-- One iteration of the partition loop of render.py lines 103–108:
replies (non-empty `root_id`) are bucketed by root id, the rest is
appended to `top_level` in order. -/
def partStep (acc : List Post × List (String × List Post)) (post : Post) :
    List Post × List (String × List Post) :=
  if post.root_id ≠ "" then (acc.1, dictAppend acc.2 post.root_id post)
  else (acc.1 ++ [post], acc.2)

/-- The partition of a day's posts into `(top_level, replies)`. -/
def partitionDay (posts : List Post) : List Post × List (String × List Post) :=
  posts.foldl partStep ([], [])

/-- The reply indent marker (render.py line 116). -/
def replyIndent : List Char := "  ↳ ".toList

/-- `if rendered: lines.append(rendered)`. -/
def optLine (s : List Char) : List (List Char) := if s = [] then [] else [s]

/-- The lines a single top-level post contributes: its own render (if
non-empty) followed by the renders of its bucketed replies
(render.py lines 110–118). -/
def renderGroup (uname : String → String) (replies : List (String × List Post))
    (post : Post) : List (List Char) :=
  optLine (render_post uname post []) ++
    (dictGetD replies post.id).flatMap
      (fun r => optLine (render_post uname r replyIndent))

/-- The day loop of `render_channel_markdown` restricted to one day's post
list (the claims quantify per day): partition, then iterate top-level posts
in order, emitting each one's group. -/
def render_day_posts (uname : String → String) (posts : List Post) :
    List (List Char) :=
  (partitionDay posts).1.flatMap (renderGroup uname (partitionDay posts).2)

/-- The same day rendering phrased the way claim C4 states it: top-level
posts are the in-order filter of the day list, and each is followed by the
in-order filter of its replies.  (Built from the claim's words, to be
proved equal to `render_day_posts`.) -/
def render_day_spec (uname : String → String) (posts : List Post) :
    List (List Char) :=
  (posts.filter (fun p => p.root_id == "")).flatMap (fun p =>
    optLine (render_post uname p []) ++
      (posts.filter (fun q => q.root_id == p.id && q.root_id != "")).flatMap
        (fun r => optLine (render_post uname r replyIndent)))

/-! ### Date-range resolution (cli.py `date_range_from_args` lines 88–129,
and the day-mode window computation in `main`, lines 645–680)

Calendar dates are modelled by their day ordinal (days since 1970-01-01,
as an `Int`); `daysFromCivil` maps a proleptic-Gregorian civil date to its
ordinal, matching Python's `datetime.date` for years ≥ 1. -/

/-- Days since 1970-01-01 of the civil date `y-m-d` (standard
days-from-civil computation, all in `Nat` so every division is exact
Euclidean division on non-negative values). -/
def daysFromCivil (y m d : Nat) : Int :=
  let y2 := if m ≤ 2 then y - 1 else y
  let era := y2 / 400
  let yoe := y2 - era * 400
  let mp := if 3 ≤ m then m - 3 else m + 9
  let doy := (153 * mp + 2) / 5 + d - 1
  let doe := yoe * 365 + yoe / 4 - yoe / 100 + doy
  (↑(era * 146097 + doe) : Int) - 719468

/-- Python's `date.weekday()` (Monday = 0) of a day ordinal:
1970-01-01 was a Thursday (3).  `Int.emod` agrees with Python's `%` for a
positive modulus. -/
def pyWeekday (o : Int) : Int := Int.emod (o + 3) 7

/-- The mutually exclusive day-mode date selectors (`--today`,
`--yesterday`, `--this-week`, `--last-week`, `--days N`, or the config
fallback with already-parsed dates).  `--hours` takes a different branch of
`main` (lines 634–643) and never reaches this computation. -/
inductive DateSel where
  | today
  | yesterday
  | this_week
  | last_week
  | days (n : Int)
  | config_range (date_from date_to : Int)
deriving DecidableEq

/-- `date_range_from_args` (cli.py lines 88–129) over day ordinals;
`todayOrd` is the ordinal of `date.today()`. -/
def date_range_from_args (sel : DateSel) (todayOrd : Int) : Int × Int :=
  match sel with
  | .today => (todayOrd, todayOrd)
  | .yesterday => (todayOrd - 1, todayOrd - 1)
  | .this_week => (todayOrd - pyWeekday todayOrd, todayOrd)
  | .last_week =>
    let last_monday := todayOrd - (pyWeekday todayOrd + 7)
    (last_monday, last_monday + 6)
  | .days n => (todayOrd - (n - 1), todayOrd)
  | .config_range f t => (f, t)

/-- Milliseconds per day. -/
def msPerDay : Int := 86400000

/-- The day-mode window computation of `main` (cli.py lines 645–680):
resolve `(date_from, date_to)`, exit with code 1 if `date_to < date_from`
(this happens before any network call — the client is only constructed at
line 685), otherwise produce
`after_ts` = 00:00:00.000 UTC of `date_from` and
`before_ts` = 23:59:59 UTC of `date_to`, in epoch milliseconds. -/
def resolveDayWindow (sel : DateSel) (todayOrd : Int) :
    Except Int (Int × Int × Int × Int) :=
  if (date_range_from_args sel todayOrd).2 < (date_range_from_args sel todayOrd).1 then
    Except.error 1
  else
    Except.ok ((date_range_from_args sel todayOrd).1,
      (date_range_from_args sel todayOrd).2,
      msPerDay * (date_range_from_args sel todayOrd).1,
      msPerDay * (date_range_from_args sel todayOrd).2 + 86399000)

/-! ### AI summary (summary.py `run_ai_summary`, lines 32–76) -/

/-- The observable outcome of the backend subprocess
(`subprocess.run(..., capture_output=True, text=True)`). -/
structure ProcResult where
  returncode : Int
  stdout : List Char
  stderr : List Char
deriving DecidableEq

/-- The tail of `run_ai_summary` after the backend returns (summary.py
lines 67–76): on non-zero exit, log the stripped stderr and
`sys.exit(result.returncode)` (modelled as `Except.error`); on zero exit,
write stdout to the file named by replacing the first `"digest_"` of the
digest's filename with `"summary_"` (modelled as `Except.ok (name, text)`;
no summary file exists on the error path). -/
def run_ai_summary (digestName : List Char) (result : ProcResult) :
    Except (Int × List Char) (List Char × List Char) :=
  if result.returncode ≠ 0 then
    Except.error (result.returncode, pyStrip result.stderr)
  else
    Except.ok
      (replaceFirst "digest_".toList "summary_".toList digestName,
        result.stdout)

/-! ### Username cache (client.py `get_username`, lines 110–117) -/

/-- The remote `/users/{id}` lookup: either a user record (whose
`username` field may be absent, `user.get("username", user_id)`) or an
HTTP error (`requests.HTTPError`, the failure mode `_get` produces). -/
inductive UserFetch where
  | found (username : Option String)
  | http_error
deriving DecidableEq

/-- `get_username(user_id)` with the `_user_cache` dict modelled as an
association list (later inserts shadow, matching dict assignment) and an
added counter of remote lookups performed by this call (0 or 1), used to
state the no-second-lookup property.  Returns
`(new cache, returned name, lookups)`. -/
def get_username (remote : String → UserFetch)
    (cache : List (String × String)) (user_id : String) :
    List (String × String) × String × Nat :=
  match cache.lookup user_id with
  | some v => (cache, v, 0)
  | none =>
    match remote user_id with
    | .found username =>
      let v := username.getD user_id
      ((user_id, v) :: cache, v, 1)
    | .http_error => ((user_id, user_id) :: cache, user_id, 1)

/-! ### DM display names (client.py `dm_display_name`, lines 100–108) -/

/-- A channel, restricted to the fields `dm_display_name` reads. -/
structure Channel where
  name : String
  display_name : String
  type : String
deriving DecidableEq

/-- The separator of synthetic DM channel names (`"userA__userB"`). -/
def dmSep : List Char := "__".toList

/-- `dm_display_name(channel, current_user_id)`: for a type-D channel,
split the synthetic name on `"__"`, pick
`next((p for p in parts if p != current_user_id), parts[0])`, resolve it
through the username cache and return `"DM with {username}"`; otherwise
`channel.get("display_name") or "Group DM"`.  (`parts[0]` is modelled as
`parts.headD []`; `splitOnSep` never returns `[]`, so the Python indexing
cannot fail.)  Returns the display string and the updated cache. -/
def dm_display_name (remote : String → UserFetch)
    (cache : List (String × String)) (channel : Channel)
    (current_user_id : String) : List Char × List (String × String) :=
  if channel.type = "D" then
    let parts := splitOnSep dmSep channel.name.toList
    let other_id :=
      (parts.find? (fun p => !(p == current_user_id.toList))).getD
        (parts.headD [])
    let gu := get_username remote cache (String.mk other_id)
    ("DM with ".toList ++ gu.2.1.toList, gu.1)
  else if channel.display_name ≠ "" then (channel.display_name.toList, cache)
  else ("Group DM".toList, cache)

/-! ## Theorems

### Lemmas about `findOcc` and `splitOnSep` -/

theorem prefix_of_append_of_length_le {p a b : List Char}
    (h : p <+: a ++ b) (hl : p.length ≤ a.length) : p <+: a := by
  have h2 : p = (a ++ b).take p.length := List.prefix_iff_eq_take.mp h
  rw [List.take_append_of_le_length hl] at h2
  rw [h2]
  exact List.take_prefix _ a

theorem infix_of_prefix_drop {sep s : List Char} {j : Nat}
    (h : sep <+: s.drop j) : sep <:+: s := by
  obtain ⟨u, hu⟩ := h
  exact ⟨s.take j, u, by rw [List.append_assoc, hu, List.take_append_drop]⟩

theorem findOcc_eq_none_of_absent (sep s : List Char)
    (h : ¬ sep <:+: s) : findOcc sep s = none := by
  induction s with
  | nil =>
    simp only [findOcc]
    rw [if_neg]
    intro hp
    exact h (infix_of_prefix_drop (j := 0) (List.isPrefixOf_iff_prefix.mp hp))
  | cons c s ih =>
    have hs : ¬ sep <:+: s := fun hInf => h (List.infix_cons hInf)
    simp only [findOcc]
    rw [if_neg, ih hs, Option.map_none']
    intro hp
    exact h (infix_of_prefix_drop (j := 0) (List.isPrefixOf_iff_prefix.mp hp))

theorem findOcc_eq_some (sep : List Char) :
    ∀ (s : List Char) (i : Nat), sep <+: s.drop i →
      (∀ j, j < i → ¬ sep <+: s.drop j) → findOcc sep s = some i := by
  intro s
  induction s with
  | nil =>
    intro i h1 h2
    have hsep : sep = [] := by simpa using h1
    have hi : i = 0 := by
      by_contra hne
      exact h2 0 (Nat.pos_of_ne_zero hne) (by simp [hsep])
    subst hsep hi
    simp [findOcc]
  | cons c s ih =>
    intro i h1 h2
    cases i with
    | zero =>
      simp only [List.drop_zero] at h1
      simp [findOcc, List.isPrefixOf_iff_prefix.mpr h1]
    | succ k =>
      have hnp : ¬ sep <+: (c :: s) := by
        have := h2 0 (Nat.succ_pos k)
        simpa using this
      have hrec : findOcc sep s = some k := by
        apply ih k
        · simpa using h1
        · intro j hj
          have := h2 (j + 1) (by omega)
          simpa using this
      simp [findOcc, hnp, List.isPrefixOf_iff_prefix, hrec]

theorem findOcc_sound (sep : List Char) :
    ∀ (s : List Char) (i : Nat), findOcc sep s = some i → sep <+: s.drop i := by
  intro s
  induction s with
  | nil =>
    intro i h
    simp only [findOcc] at h
    split at h
    · rename_i hp
      cases h
      simpa using List.isPrefixOf_iff_prefix.mp hp
    · cases h
  | cons c s ih =>
    intro i h
    simp only [findOcc] at h
    split at h
    · rename_i hp
      cases h
      simpa using List.isPrefixOf_iff_prefix.mp hp
    · rcases Option.map_eq_some'.mp h with ⟨k, hk, rfl⟩
      simpa using ih k hk

theorem findOcc_nil_of_ne (sep : List Char) (hsep : sep ≠ []) :
    findOcc sep [] = none := by
  simp only [findOcc]
  rw [if_neg]
  intro hp
  exact hsep (by simpa using List.isPrefixOf_iff_prefix.mp hp)

theorem splitAux_fuel_invariant (sep : List Char) (hsep : sep ≠ []) :
    ∀ (f1 : Nat) (s : List Char) (f2 : Nat), s.length ≤ f1 → s.length ≤ f2 →
      splitAux sep f1 s = splitAux sep f2 s := by
  intro f1
  induction f1 with
  | zero =>
    intro s f2 h1 _
    have hs : s = [] := List.eq_nil_of_length_eq_zero (Nat.le_zero.mp h1)
    subst hs
    cases f2 with
    | zero => rfl
    | succ m => simp [splitAux, findOcc_nil_of_ne sep hsep]
  | succ n ih =>
    intro s f2 h1 h2
    cases hocc : findOcc sep s with
    | none =>
      cases f2 with
      | zero =>
        have hs : s = [] := List.eq_nil_of_length_eq_zero (Nat.le_zero.mp h2)
        subst hs
        simp [splitAux, hocc]
      | succ m => simp [splitAux, hocc]
    | some i =>
      have hp := findOcc_sound sep s i hocc
      have hlen : sep.length ≤ s.length - i := by
        have := hp.length_le
        simpa using this
      have hsl : 1 ≤ sep.length := by
        cases sep with
        | nil => exact absurd rfl hsep
        | cons a l => simp
      have hspos : 1 ≤ s.length := by omega
      cases f2 with
      | zero => omega
      | succ m =>
        simp only [splitAux, hocc]
        rw [ih (s.drop (i + sep.length)) m (by simp; omega) (by simp; omega)]

theorem splitOnSep_of_no_occ (sep s : List Char) (h : findOcc sep s = none) :
    splitOnSep sep s = [s] := by
  cases s with
  | nil => rfl
  | cons c t => simp [splitOnSep, splitAux, h]

theorem splitOnSep_cons_of_first (sep a t : List Char) (hsep : sep ≠ [])
    (hfirst : findOcc sep (a ++ (sep ++ t)) = some a.length) :
    splitOnSep sep (a ++ (sep ++ t)) = a :: splitOnSep sep t := by
  have hsl : 1 ≤ sep.length := by
    cases sep with
    | nil => exact absurd rfl hsep
    | cons x l => simp
  have hlen : (a ++ (sep ++ t)).length = a.length + sep.length + t.length := by
    simp [List.length_append]
    omega
  obtain ⟨m, hm⟩ : ∃ m, (a ++ (sep ++ t)).length = m + 1 :=
    ⟨(a ++ (sep ++ t)).length - 1, by omega⟩
  unfold splitOnSep
  rw [hm]
  simp only [splitAux, hfirst]
  have htake : (a ++ (sep ++ t)).take a.length = a := List.take_left a (sep ++ t)
  have hdrop : (a ++ (sep ++ t)).drop (a.length + sep.length) = t := by
    rw [← List.append_assoc, ← List.length_append]
    exact List.drop_left (a ++ sep) t
  rw [htake, hdrop]
  congr 1
  exact splitAux_fuel_invariant sep hsep m t t.length (by omega) (by omega)

theorem splitAux_ne_nil (sep : List Char) :
    ∀ (fuel : Nat) (s : List Char), splitAux sep fuel s ≠ [] := by
  intro fuel s
  cases fuel with
  | zero => simp [splitAux]
  | succ n =>
    simp only [splitAux]
    cases findOcc sep s with
    | none => simp
    | some i => simp

theorem splitOnSep_ne_nil (sep s : List Char) : splitOnSep sep s ≠ [] :=
  splitAux_ne_nil sep s.length s

/-- If `a` does not contain the digest separator and does not end in one of
its two boundary-completing suffixes, then the leftmost occurrence of the
separator in `a ++ digestSep ++ t` is exactly at the join point
`a.length`. -/
theorem findOcc_digestSep_boundary (a t : List Char)
    (h1 : ¬ digestSep <:+: a)
    (h2 : ¬ digestSep.take 5 <:+ a)
    (h3 : ¬ digestSep.take 6 <:+ a) :
    findOcc digestSep (a ++ (digestSep ++ t)) = some a.length := by
  apply findOcc_eq_some
  · rw [List.drop_left]
    exact List.prefix_append digestSep t
  · intro j hj hp
    rw [List.drop_append_of_le_length (le_of_lt hj)] at hp
    have hlend : (a.drop j).length = a.length - j := List.length_drop j a
    obtain ⟨k, hk⟩ : ∃ k, (a.drop j).length = k := ⟨_, rfl⟩
    have hk1 : 1 ≤ k := by
      rw [hlend] at hk
      omega
    have hsepLen : digestSep.length = 7 := by decide
    by_cases hbig : digestSep.length ≤ (a.drop j).length
    · exact h1 (infix_of_prefix_drop (prefix_of_append_of_length_le hp hbig))
    · have hks : k ≤ 6 := by omega
      have hEq : digestSep = a.drop j ++ digestSep.take (digestSep.length - k) := by
        have he : digestSep = (a.drop j ++ (digestSep ++ t)).take digestSep.length :=
          List.prefix_iff_eq_take.mp hp
        rw [List.take_append_eq_append_take, hk] at he
        rw [List.take_append_of_le_length (by omega),
          List.take_of_length_le (by omega)] at he
        exact he
      have hTake : digestSep.take k = a.drop j := by
        have hc := congrArg (List.take k) hEq
        rw [← hk, List.take_left] at hc
        rw [hk] at hc
        exact hc
      have hDrop : digestSep.drop k = digestSep.take (digestSep.length - k) := by
        have hc := congrArg (List.drop k) hEq
        rw [← hk, List.drop_left] at hc
        rw [hk] at hc
        exact hc
      interval_cases k
      · exact absurd hDrop (by decide)
      · exact absurd hDrop (by decide)
      · exact absurd hDrop (by decide)
      · exact absurd hDrop (by decide)
      · exact h2 (hTake ▸ List.drop_suffix j a)
      · exact h3 (hTake ▸ List.drop_suffix j a)

/-! ### Claim C3: digest join/split round trip -/

/-- Claim C3, counterexample: as stated the claim is false.  A non-empty
render may itself contain the separator (every real output of
`render_channel_markdown` does, via its header's `"", "---", ""` lines),
and then the split produces more segments than renders.  Concretely, for
the single render `"x\n\n---\n\ny"` the digest is that render itself and
splitting yields 2 ≠ 1 segments. -/
theorem digest_split_roundtrip_counterexample :
    (1 ≤ ([badRender] : List (List Char)).length ∧
        ∀ r ∈ ([badRender] : List (List Char)), r ≠ []) ∧
      (splitOnSep digestSep (pyJoin digestSep [badRender])).length ≠
        ([badRender] : List (List Char)).length :=
  ⟨⟨by decide, by decide⟩, by decide⟩

/-- Claim C3, amended: for every `N ≥ 1` and list of `N` non-empty
per-channel renders, joining with the fixed separator and splitting back
yields exactly `N` segments, provided additionally that no render contains
the separator and no render ends with `"\n\n---"` or `"\n\n---\n"`
(either would create an earlier separator occurrence). -/
theorem digest_split_roundtrip (renders : List (List Char))
    (hN : 1 ≤ renders.length)
    (hne : ∀ r ∈ renders, r ≠ [])
    (hclean : ∀ r ∈ renders, boundaryClean r) :
    (splitOnSep digestSep (pyJoin digestSep renders)).length =
      renders.length := by
  induction renders with
  | nil => simp at hN
  | cons r rest ih =>
    obtain ⟨hc1, hc2, hc3⟩ := hclean r (by simp)
    cases rest with
    | nil =>
      have hj : pyJoin digestSep [r] = r := rfl
      rw [hj, splitOnSep_of_no_occ _ _ (findOcc_eq_none_of_absent _ _ hc1)]
    | cons r2 rest2 =>
      have hstep : pyJoin digestSep (r :: r2 :: rest2) =
          r ++ (digestSep ++ pyJoin digestSep (r2 :: rest2)) := by
        simp [pyJoin, List.append_assoc]
      rw [hstep,
        splitOnSep_cons_of_first digestSep r _ (by decide)
          (findOcc_digestSep_boundary r _ hc1 hc2 hc3)]
      have hlen2 := ih (by simp) (fun x hx => hne x (by simp [hx]))
        (fun x hx => hclean x (by simp [hx]))
      simp only [List.length_cons] at hlen2 ⊢
      omega

/-- Witness for the amended claim C3 at the concrete renders
`["a", "b"]`. -/
theorem digest_split_roundtrip_witness :
    (1 ≤ (["a".toList, "b".toList] : List (List Char)).length ∧
        (∀ r ∈ (["a".toList, "b".toList] : List (List Char)), r ≠ []) ∧
        (∀ r ∈ (["a".toList, "b".toList] : List (List Char)), boundaryClean r)) ∧
      (splitOnSep digestSep
          (pyJoin digestSep ["a".toList, "b".toList])).length =
        (["a".toList, "b".toList] : List (List Char)).length :=
  ⟨⟨by decide, by decide, by decide⟩,
    digest_split_roundtrip ["a".toList, "b".toList] (by decide) (by decide)
      (by decide)⟩

/-! ### Claims C1 and C2: pagination -/

theorem mem_filter_inWindow {after before : Int} {l : List Post} {p : Post}
    (hp : p ∈ l.filter (inWindow after before)) :
    after ≤ p.create_at ∧ p.create_at ≤ before := by
  have := (List.mem_filter.mp hp).2
  simpa [inWindow] using this

theorem fetchLoop_mem_window (after before : Int) :
    ∀ (n : Nat) (remaining : List Entry), remaining.length ≤ n →
      ∀ p ∈ fetchLoop after before remaining,
        after ≤ p.create_at ∧ p.create_at ≤ before := by
  intro n
  induction n with
  | zero =>
    intro remaining hl p hp
    have hr : remaining = [] := List.eq_nil_of_length_eq_zero (Nat.le_zero.mp hl)
    subst hr
    rw [fetchLoop] at hp
    simp at hp
  | succ n ih =>
    intro remaining hl p hp
    rw [fetchLoop] at hp
    split at hp
    · simp at hp
    · split at hp
      · exact mem_filter_inWindow hp
      · split at hp
        · exact mem_filter_inWindow hp
        · rcases List.mem_append.mp hp with h1 | h2
          · exact mem_filter_inWindow h1
          · exact ih (remaining.drop per_page)
              (by simp only [List.length_drop, per_page]; omega) p h2

theorem resolvePage_split (remaining : List Entry) :
    resolvePage remaining =
      resolvePage (remaining.take per_page) ++
        resolvePage (remaining.drop per_page) := by
  unfold resolvePage
  rw [← List.filterMap_append, List.take_append_drop]

theorem fetchLoop_sublist (after before : Int) :
    ∀ (n : Nat) (remaining : List Entry), remaining.length ≤ n →
      List.Sublist (fetchLoop after before remaining) (resolvePage remaining) := by
  intro n
  induction n with
  | zero =>
    intro remaining hl
    have hr : remaining = [] := List.eq_nil_of_length_eq_zero (Nat.le_zero.mp hl)
    subst hr
    rw [fetchLoop]
    simp
  | succ n ih =>
    intro remaining hl
    rw [fetchLoop]
    split
    · exact List.nil_sublist _
    · rw [resolvePage_split remaining]
      split
      · exact (List.filter_sublist _).trans (List.sublist_append_left _ _)
      · split
        · exact (List.filter_sublist _).trans (List.sublist_append_left _ _)
        · exact List.Sublist.append (List.filter_sublist _)
            (ih (remaining.drop per_page)
              (by simp only [List.length_drop, per_page]; omega))

/-- Claim C1: for every window with `after_ts ≤ before_ts`, under the
claim's assumptions on the remote pages (modelled as: the resolvable posts
of the cursor walk are ordered newest-first, and — as befits an id-keyed
store — carry pairwise distinct ids), `get_posts_in_range` returns only
posts with `after_ts ≤ create_at ≤ before_ts`, sorted ascending by
`create_at`, with no duplicate ids. -/
theorem get_posts_in_range_window_sorted_nodup (after before : Int)
    (entries : List Entry)
    (hab : after ≤ before)
    (hdesc : ((resolvePage entries).map Post.create_at).Pairwise
      (fun a b => b ≤ a))
    (hids : ((resolvePage entries).map Post.id).Nodup) :
    (∀ p ∈ get_posts_in_range after before entries,
        after ≤ p.create_at ∧ p.create_at ≤ before) ∧
      (get_posts_in_range after before entries).Pairwise
        (fun a b => a.create_at ≤ b.create_at) ∧
      ((get_posts_in_range after before entries).map Post.id).Nodup := by
  have hperm : List.Perm (get_posts_in_range after before entries)
      (fetchLoop after before entries) :=
    List.mergeSort_perm _ _
  refine ⟨?_, ?_, ?_⟩
  · intro p hp
    exact fetchLoop_mem_window after before entries.length entries le_rfl p
      (hperm.mem_iff.mp hp)
  · have hs := @List.sorted_mergeSort Post
      (fun a b : Post => decide (a.create_at ≤ b.create_at))
      (fun a b c hab2 hbc => by
        simp only [decide_eq_true_eq] at *
        omega)
      (fun a b => by
        simp only [Bool.or_eq_true, decide_eq_true_eq]
        omega)
      (fetchLoop after before entries)
    exact hs.imp (fun hab2 => by simpa using hab2)
  · have hsub := (fetchLoop_sublist after before entries.length entries
      le_rfl).map Post.id
    exact ((hperm.map Post.id).nodup_iff).mpr (hsub.nodup hids)

/-- Witness for claim C1 at a concrete two-page-entry channel. -/
theorem get_posts_in_range_window_sorted_nodup_witness :
    ((100 : Int) ≤ 800 ∧
      ((resolvePage
          [⟨"b", some ⟨"b", "u1", 500, [], ""⟩⟩,
            ⟨"a", some ⟨"a", "u2", 50, [], ""⟩⟩]).map Post.create_at).Pairwise
        (fun a b => b ≤ a) ∧
      ((resolvePage
          [⟨"b", some ⟨"b", "u1", 500, [], ""⟩⟩,
            ⟨"a", some ⟨"a", "u2", 50, [], ""⟩⟩]).map Post.id).Nodup) ∧
    ((∀ p ∈ get_posts_in_range 100 800
          [⟨"b", some ⟨"b", "u1", 500, [], ""⟩⟩,
            ⟨"a", some ⟨"a", "u2", 50, [], ""⟩⟩],
        100 ≤ p.create_at ∧ p.create_at ≤ 800) ∧
      (get_posts_in_range 100 800
          [⟨"b", some ⟨"b", "u1", 500, [], ""⟩⟩,
            ⟨"a", some ⟨"a", "u2", 50, [], ""⟩⟩]).Pairwise
        (fun a b => a.create_at ≤ b.create_at) ∧
      ((get_posts_in_range 100 800
          [⟨"b", some ⟨"b", "u1", 500, [], ""⟩⟩,
            ⟨"a", some ⟨"a", "u2", 50, [], ""⟩⟩]).map Post.id).Nodup) :=
  ⟨⟨by decide, by decide, by decide⟩,
    get_posts_in_range_window_sorted_nodup 100 800
      [⟨"b", some ⟨"b", "u1", 500, [], ""⟩⟩,
        ⟨"a", some ⟨"a", "u2", 50, [], ""⟩⟩]
      (by decide) (by decide) (by decide)⟩

theorem fetchTrace_ne_nil (after : Int) (remaining : List Entry) :
    fetchTrace after remaining ≠ [] := by
  rw [fetchTrace]
  split
  · simp
  · split
    · simp
    · split
      · simp
      · simp

theorem fetchTrace_mul_bound (after : Int) :
    ∀ (n : Nat) (remaining : List Entry), remaining.length ≤ n →
      per_page * (fetchTrace after remaining).length ≤
        remaining.length + per_page := by
  intro n
  induction n with
  | zero =>
    intro remaining hl
    have hr : remaining = [] := List.eq_nil_of_length_eq_zero (Nat.le_zero.mp hl)
    subst hr
    rw [fetchTrace]
    simp
  | succ n ih =>
    intro remaining hl
    rw [fetchTrace]
    split
    · simp
    · split
      · simp
      · split
        · simp
        · rename_i hshort
          have hfull : remaining.length ≥ per_page := by
            simp only [List.length_take] at hshort
            omega
          have hrec := ih (remaining.drop per_page)
            (by simp only [List.length_drop, per_page]; omega)
          simp only [List.length_cons, List.length_drop, per_page] at hrec hfull ⊢
          omega

theorem fetchTrace_dropLast (after : Int) :
    ∀ (n : Nat) (remaining : List Entry), remaining.length ≤ n →
      ∀ page ∈ (fetchTrace after remaining).dropLast,
        page.length = per_page ∧
          stopOldest (oldestTs (resolvePage page)) after = false := by
  intro n
  induction n with
  | zero =>
    intro remaining hl page hp
    have hr : remaining = [] := List.eq_nil_of_length_eq_zero (Nat.le_zero.mp hl)
    subst hr
    rw [fetchTrace] at hp
    simp at hp
  | succ n ih =>
    intro remaining hl page hp
    rw [fetchTrace] at hp
    split at hp
    · simp at hp
    · split at hp
      · simp at hp
      · split at hp
        · simp at hp
        · rename_i hstop hshort
          rw [List.dropLast_cons_of_ne_nil (fetchTrace_ne_nil after _)] at hp
          rcases List.mem_cons.mp hp with h1 | h2
          · subst h1
            refine ⟨?_, ?_⟩
            · simp only [List.length_take]
              simp only [List.length_take] at hshort
              omega
            · exact Bool.not_eq_true _ ▸ (by simpa using hstop)
          · exact ih (remaining.drop per_page)
              (by simp only [List.length_drop, per_page]; omega) page h2

/-- Claim C2: the pagination loop terminates — its request trace is finite,
of length at most `remaining.length / 200 + 1` — and no request ever
follows a page that was observed empty, short (fewer than 200 entries), or
with minimum resolvable `create_at` strictly below `after_ts`: every page
in the trace except the last is non-empty, exactly 200 long, and passes
the minimum-timestamp test. -/
theorem get_posts_in_range_request_bound (after : Int)
    (remaining : List Entry) :
    (fetchTrace after remaining).length ≤ remaining.length / per_page + 1 ∧
      ∀ page ∈ (fetchTrace after remaining).dropLast,
        page ≠ [] ∧ page.length = per_page ∧
          stopOldest (oldestTs (resolvePage page)) after = false := by
  constructor
  · have hmul := fetchTrace_mul_bound after remaining.length remaining le_rfl
    have hdiv : (remaining.length + per_page) / per_page =
        remaining.length / per_page + 1 :=
      Nat.add_div_right remaining.length (by norm_num [per_page])
    have hle : (fetchTrace after remaining).length ≤
        (remaining.length + per_page) / per_page :=
      (Nat.le_div_iff_mul_le (by norm_num [per_page])).mpr
        (by rw [Nat.mul_comm]; exact hmul)
    omega
  · intro page hp
    have h2 := fetchTrace_dropLast after remaining.length remaining le_rfl page hp
    refine ⟨?_, h2.1, h2.2⟩
    intro hnil
    rw [hnil] at h2
    simp [per_page] at h2

/-- Witness for claim C2 at a concrete one-entry channel. -/
theorem get_posts_in_range_request_bound_witness :
    (fetchTrace 100 [⟨"a", some ⟨"a", "u1", 500, [], ""⟩⟩]).length ≤
        ([⟨"a", some ⟨"a", "u1", 500, [], ""⟩⟩] : List Entry).length / per_page + 1 ∧
      ∀ page ∈ (fetchTrace 100 [⟨"a", some ⟨"a", "u1", 500, [], ""⟩⟩]).dropLast,
        page ≠ [] ∧ page.length = per_page ∧
          stopOldest (oldestTs (resolvePage page)) 100 = false :=
  get_posts_in_range_request_bound 100 [⟨"a", some ⟨"a", "u1", 500, [], ""⟩⟩]

/-! ### Claims C4 and C8: per-day thread rendering -/

theorem foldl_partStep_fst :
    ∀ (posts : List Post) (tl : List Post) (rd : List (String × List Post)),
      (posts.foldl partStep (tl, rd)).1 =
        tl ++ posts.filter (fun p => p.root_id == "") := by
  intro posts
  induction posts with
  | nil =>
    intro tl rd
    simp
  | cons p rest ih =>
    intro tl rd
    by_cases h : p.root_id = ""
    · simp [partStep, h, ih]
    · simp [partStep, h, ih]

theorem dictGetD_dictAppend_self (d : List (String × List Post)) (k : String)
    (p : Post) : dictGetD (dictAppend d k p) k = dictGetD d k ++ [p] := by
  induction d with
  | nil => simp [dictAppend, dictGetD]
  | cons kv rest ih =>
    obtain ⟨k2, v⟩ := kv
    by_cases h : k2 = k
    · simp [dictAppend, dictGetD, h]
    · simp [dictAppend, dictGetD, h, ih]

theorem dictGetD_dictAppend_ne (d : List (String × List Post)) (k q : String)
    (p : Post) (hq : q ≠ k) :
    dictGetD (dictAppend d k p) q = dictGetD d q := by
  have hkq : k ≠ q := Ne.symm hq
  induction d with
  | nil => simp [dictAppend, dictGetD, hkq]
  | cons kv rest ih =>
    obtain ⟨k2, v⟩ := kv
    by_cases h : k2 = k
    · subst h
      simp [dictAppend, dictGetD, hkq]
    · simp [dictAppend, dictGetD, h, ih]

theorem foldl_partStep_lookup :
    ∀ (posts : List Post) (tl : List Post) (rd : List (String × List Post))
      (q : String), q ≠ "" →
      dictGetD (posts.foldl partStep (tl, rd)).2 q =
        dictGetD rd q ++ posts.filter (fun x => x.root_id == q) := by
  intro posts
  induction posts with
  | nil =>
    intro tl rd q _
    simp
  | cons p rest ih =>
    intro tl rd q hq
    by_cases h : p.root_id = ""
    · have hpq : (p.root_id == q) = false := by
        rw [h]
        exact beq_eq_false_iff_ne.mpr (Ne.symm hq)
      simp only [List.foldl_cons, partStep]
      rw [if_neg (by simp [h])]
      rw [ih _ _ q hq, List.filter_cons_of_neg (by simp [hpq])]
    · by_cases hpq : p.root_id = q
      · simp only [List.foldl_cons, partStep, if_pos h]
        rw [ih _ _ q hq, hpq, dictGetD_dictAppend_self]
        rw [List.filter_cons_of_pos (by simp [hpq])]
        simp [List.append_assoc]
      · simp only [List.foldl_cons, partStep, if_pos h]
        rw [ih _ _ q hq, dictGetD_dictAppend_ne _ _ _ _ (Ne.symm hpq)]
        rw [List.filter_cons_of_neg (by simp [hpq])]

theorem foldl_partStep_lookup_empty :
    ∀ (posts : List Post) (tl : List Post) (rd : List (String × List Post)),
      dictGetD rd "" = [] →
      dictGetD (posts.foldl partStep (tl, rd)).2 "" = [] := by
  intro posts
  induction posts with
  | nil =>
    intro tl rd h
    simpa using h
  | cons p rest ih =>
    intro tl rd h
    by_cases hr : p.root_id = ""
    · simp only [List.foldl_cons, partStep, hr]
      simpa [partStep] using ih _ _ h
    · simp only [List.foldl_cons, partStep, if_pos hr]
      exact ih _ _ (by rw [dictGetD_dictAppend_ne _ _ _ _ (Ne.symm hr)]; exact h)

theorem renderGroup_eq_filter (uname : String → String) (posts : List Post)
    (p : Post) :
    renderGroup uname (partitionDay posts).2 p =
      optLine (render_post uname p []) ++
        (posts.filter (fun q => q.root_id == p.id && q.root_id != "")).flatMap
          (fun r => optLine (render_post uname r replyIndent)) := by
  unfold renderGroup
  by_cases hid : p.id = ""
  · have h1 : dictGetD (partitionDay posts).2 p.id = [] := by
      rw [hid]
      exact foldl_partStep_lookup_empty posts [] [] rfl
    have h2 : posts.filter (fun q => q.root_id == p.id && q.root_id != "") = [] := by
      apply List.filter_eq_nil_iff.mpr
      intro q _
      by_cases hq : q.root_id = ""
      · simp [hq, hid]
      · simp [hid, hq]
    rw [h1, h2]
  · have h1 : dictGetD (partitionDay posts).2 p.id =
        posts.filter (fun x => x.root_id == p.id) :=
      foldl_partStep_lookup posts [] [] p.id hid
    have h2 : posts.filter (fun q => q.root_id == p.id && q.root_id != "") =
        posts.filter (fun x => x.root_id == p.id) := by
      apply List.filter_congr
      intro q _
      by_cases hq : q.root_id = p.id
      · simp [hq, hid]
      · simp [hq]
    rw [h1, h2]

/-- Claim C4: for every day's post list, the emitted lines are exactly:
the top-level posts (empty `root_id`) in their given order, each
immediately followed by all replies whose `root_id` equals its id, in the
order they appear in the day's list, rendered with the reply indent
marker.  In particular a reply whose `root_id` matches no top-level post
of the day contributes to no group and appears nowhere in the output. -/
theorem render_day_thread_structure (uname : String → String)
    (posts : List Post) :
    render_day_posts uname posts = render_day_spec uname posts := by
  unfold render_day_posts render_day_spec
  have h1 : (partitionDay posts).1 = posts.filter (fun p => p.root_id == "") := by
    have := foldl_partStep_fst posts [] []
    simpa [partitionDay] using this
  have h2 : renderGroup uname (partitionDay posts).2 = fun p =>
      optLine (render_post uname p []) ++
        (posts.filter (fun q => q.root_id == p.id && q.root_id != "")).flatMap
          (fun r => optLine (render_post uname r replyIndent)) :=
    funext (renderGroup_eq_filter uname posts)
  rw [h1, h2]

theorem mem_optLine {s x : List Char} (h : s ∈ optLine x) : x ≠ [] ∧ s = x := by
  unfold optLine at h
  split at h
  · simp at h
  · rename_i hx
    simp at h
    exact ⟨hx, h⟩

theorem render_post_indent_led (uname : String → String) (post : Post)
    (indent : List Char) (h : render_post uname post indent ≠ []) :
    indent <+: render_post uname post indent := by
  simp only [render_post] at h ⊢
  by_cases hm2 : pyJoin ['\n']
      (List.filter (fun line => !(pyStrip line).isEmpty)
        (splitLines (pyStrip post.message))) = []
  · rw [if_pos hm2] at h
    exact absurd rfl h
  · rw [if_neg hm2]
    split
    · simp only [List.append_assoc]
      exact List.prefix_append indent _
    · simp only [List.append_assoc]
      exact List.prefix_append indent _

/-- Claim C8: a top-level post whose message strips to empty renders
nothing itself, yet all of its same-day replies are still rendered, each
led by the reply indent marker — so a reply block can appear with no root
line above it. -/
theorem empty_root_still_renders_replies (uname : String → String)
    (posts : List Post) (p : Post)
    (hp : p ∈ (partitionDay posts).1)
    (hempty : render_post uname p [] = []) :
    renderGroup uname (partitionDay posts).2 p =
      (posts.filter (fun q => q.root_id == p.id && q.root_id != "")).flatMap
        (fun r => optLine (render_post uname r replyIndent)) ∧
      ∀ s ∈ renderGroup uname (partitionDay posts).2 p, replyIndent <+: s := by
  have hgrp := renderGroup_eq_filter uname posts p
  constructor
  · rw [hgrp, hempty]
    simp [optLine]
  · intro s hs
    rw [hgrp, hempty] at hs
    simp only [optLine, if_pos rfl, List.nil_append] at hs
    rcases List.mem_flatMap.mp hs with ⟨r, _, hsr⟩
    obtain ⟨hne2, rfl⟩ := mem_optLine hsr
    exact render_post_indent_led uname r replyIndent hne2

/-- Witness for claim C8: a root whose message is whitespace-only, with
one reply; the group renders only the indented reply. -/
theorem empty_root_still_renders_replies_witness :
    ((⟨"r1", "u1", 0, "  \n ".toList, ""⟩ : Post) ∈
        (partitionDay
          [⟨"r1", "u1", 0, "  \n ".toList, ""⟩,
            ⟨"c1", "u2", 60000, "hi".toList, "r1"⟩]).1 ∧
      render_post (fun _ => "alice") ⟨"r1", "u1", 0, "  \n ".toList, ""⟩ [] = []) ∧
      (renderGroup (fun _ => "alice")
          (partitionDay
            [⟨"r1", "u1", 0, "  \n ".toList, ""⟩,
              ⟨"c1", "u2", 60000, "hi".toList, "r1"⟩]).2
          ⟨"r1", "u1", 0, "  \n ".toList, ""⟩ =
        ([⟨"r1", "u1", 0, "  \n ".toList, ""⟩,
            ⟨"c1", "u2", 60000, "hi".toList, "r1"⟩].filter
          (fun q => q.root_id == (⟨"r1", "u1", 0, "  \n ".toList, ""⟩ : Post).id &&
            q.root_id != "")).flatMap
          (fun r => optLine (render_post (fun _ => "alice") r replyIndent)) ∧
      ∀ s ∈ renderGroup (fun _ => "alice")
          (partitionDay
            [⟨"r1", "u1", 0, "  \n ".toList, ""⟩,
              ⟨"c1", "u2", 60000, "hi".toList, "r1"⟩]).2
          ⟨"r1", "u1", 0, "  \n ".toList, ""⟩, replyIndent <+: s) :=
  ⟨⟨by decide, by decide⟩,
    empty_root_still_renders_replies (fun _ => "alice")
      [⟨"r1", "u1", 0, "  \n ".toList, ""⟩,
        ⟨"c1", "u2", 60000, "hi".toList, "r1"⟩]
      ⟨"r1", "u1", 0, "  \n ".toList, ""⟩ (by decide) (by decide)⟩

/-! ### Claims C5 and C10: day-mode time window -/

/-- Claim C5: in day mode the fetch window is
`after_ts = msPerDay * date_from` (00:00:00.000 UTC of `date_from`) and
`before_ts = msPerDay * date_to + 86399000` (23:59:59 UTC of `date_to`);
whenever the resolved `date_to` precedes `date_from` the run exits with
code 1 (before any fetch — `resolveDayWindow` models cli.py lines 645–680,
which precede the client construction at line 685); and `--days 3` with
today frozen at 2026-02-20 yields the inclusive window
2026-02-18 .. 2026-02-20. -/
theorem day_window_formula (sel : DateSel) (todayOrd : Int) :
    ((date_range_from_args sel todayOrd).2 <
        (date_range_from_args sel todayOrd).1 →
      resolveDayWindow sel todayOrd = Except.error 1) ∧
    ((date_range_from_args sel todayOrd).1 ≤
        (date_range_from_args sel todayOrd).2 →
      resolveDayWindow sel todayOrd =
        Except.ok ((date_range_from_args sel todayOrd).1,
          (date_range_from_args sel todayOrd).2,
          msPerDay * (date_range_from_args sel todayOrd).1,
          msPerDay * (date_range_from_args sel todayOrd).2 + 86399000)) ∧
    resolveDayWindow (.days 3) (daysFromCivil 2026 2 20) =
      Except.ok (daysFromCivil 2026 2 18, daysFromCivil 2026 2 20,
        msPerDay * daysFromCivil 2026 2 18,
        msPerDay * daysFromCivil 2026 2 20 + 86399000) := by
  refine ⟨?_, ?_, ?_⟩
  · intro h
    rw [resolveDayWindow, if_pos h]
  · intro h
    rw [resolveDayWindow, if_neg (by omega)]
  · rfl

/-- Witness for claim C5: the error branch at `config_range 5 3` and the
ok branch at `--today`. -/
theorem day_window_formula_witness :
    (((date_range_from_args (.config_range 5 3) 0).2 <
          (date_range_from_args (.config_range 5 3) 0).1) ∧
        resolveDayWindow (.config_range 5 3) 0 = Except.error 1) ∧
      ((date_range_from_args .today 0).1 ≤ (date_range_from_args .today 0).2) ∧
        resolveDayWindow .today 0 =
          Except.ok ((date_range_from_args .today 0).1,
            (date_range_from_args .today 0).2,
            msPerDay * (date_range_from_args .today 0).1,
            msPerDay * (date_range_from_args .today 0).2 + 86399000) :=
  ⟨⟨by decide, (day_window_formula (.config_range 5 3) 0).1 (by decide)⟩,
    by decide, (day_window_formula .today 0).2.1 (by decide)⟩

/-- Claim C10: `--days N` with `N ≤ 0` computes a start date after today
(`start = today - (N - 1)`), so the `date_to < date_from` check fires and
the run exits with code 1, before any network call (the window computation
of cli.py lines 645–680 precedes the client construction at line 685). -/
theorem nonpositive_days_rejected (n : Int) (todayOrd : Int) (h : n ≤ 0) :
    resolveDayWindow (.days n) todayOrd = Except.error 1 := by
  have hlt : (date_range_from_args (.days n) todayOrd).2 <
      (date_range_from_args (.days n) todayOrd).1 := by
    simp only [date_range_from_args]
    omega
  rw [resolveDayWindow, if_pos hlt]

/-- Witness for claim C10 at `N = 0` and today = 2026-02-20. -/
theorem nonpositive_days_rejected_witness :
    (0 : Int) ≤ 0 ∧
      resolveDayWindow (.days 0) (daysFromCivil 2026 2 20) = Except.error 1 :=
  ⟨by decide, nonpositive_days_rejected 0 (daysFromCivil 2026 2 20) (by decide)⟩

/-! ### Claim C6: AI backend exit behaviour -/

theorem replaceFirst_left (old new rest : List Char) :
    replaceFirst old new (old ++ rest) = new ++ rest := by
  have hfo : findOcc old (old ++ rest) = some 0 := by
    apply findOcc_eq_some
    · simpa using List.prefix_append old rest
    · intro j hj
      exact absurd hj (Nat.not_lt_zero j)
  simp only [replaceFirst, hfo, List.take_zero, Nat.zero_add, List.nil_append]
  rw [List.drop_left]

/-- Claim C6: a non-zero backend exit terminates the run with exactly the
backend's exit code and its (stripped) stderr surfaced, writing no summary
file; a zero exit writes the backend's stdout under the digest filename
with its first `"digest_"` replaced by `"summary_"` — in particular a name
of the form `"digest_" ++ rest` becomes `"summary_" ++ rest`. -/
theorem run_ai_summary_exit_behavior (digestName : List Char)
    (result : ProcResult) :
    (result.returncode ≠ 0 →
        run_ai_summary digestName result =
          Except.error (result.returncode, pyStrip result.stderr)) ∧
      (result.returncode = 0 →
        run_ai_summary digestName result =
          Except.ok
            (replaceFirst "digest_".toList "summary_".toList digestName,
              result.stdout)) ∧
      ∀ rest : List Char,
        replaceFirst "digest_".toList "summary_".toList
            ("digest_".toList ++ rest) = "summary_".toList ++ rest := by
  refine ⟨?_, ?_, ?_⟩
  · intro h
    rw [run_ai_summary, if_pos h]
  · intro h
    rw [run_ai_summary, if_neg (by simp [h])]
  · intro rest
    exact replaceFirst_left _ _ rest

/-- Witness for claim C6: the spec's example — exit code 1 with stderr
`"rate limited"` — and the filename derivation for
`digest_2026-02-20.md`. -/
theorem run_ai_summary_exit_behavior_witness :
    ((1 : Int) ≠ 0 ∧
        run_ai_summary "digest_2026-02-20.md".toList
            ⟨1, [], "rate limited".toList⟩ =
          Except.error (1, pyStrip "rate limited".toList)) ∧
      replaceFirst "digest_".toList "summary_".toList
          ("digest_".toList ++ "2026-02-20.md".toList) =
        "summary_".toList ++ "2026-02-20.md".toList :=
  ⟨⟨by decide,
      (run_ai_summary_exit_behavior "digest_2026-02-20.md".toList
        ⟨1, [], "rate limited".toList⟩).1 (by decide)⟩,
    (run_ai_summary_exit_behavior "digest_2026-02-20.md".toList
      ⟨1, [], "rate limited".toList⟩).2.2 "2026-02-20.md".toList⟩

/-! ### Claim C7: username cache -/

/-- Claim C7: `get_username` is total (modelled as a Lean function, it
cannot raise): on a failed lookup it caches and returns the raw id; on a
successful lookup it caches and returns the record's username, or the raw
id when the record has none; on a cache hit it returns the cached value;
and any call made after a first call for the same id returns that call's
value with zero further remote lookups. -/
theorem get_username_cache_behavior (remote : String → UserFetch)
    (cache : List (String × String)) (user_id : String) :
    (cache.lookup user_id = none → remote user_id = .http_error →
        get_username remote cache user_id =
          ((user_id, user_id) :: cache, user_id, 1)) ∧
      (∀ uname, cache.lookup user_id = none → remote user_id = .found uname →
        get_username remote cache user_id =
          ((user_id, uname.getD user_id) :: cache, uname.getD user_id, 1)) ∧
      (∀ v, cache.lookup user_id = some v →
        get_username remote cache user_id = (cache, v, 0)) ∧
      get_username remote (get_username remote cache user_id).1 user_id =
        ((get_username remote cache user_id).1,
          (get_username remote cache user_id).2.1, 0) := by
  refine ⟨?_, ?_, ?_, ?_⟩
  · intro h1 h2
    simp [get_username, h1, h2]
  · intro u h1 h2
    simp [get_username, h1, h2]
  · intro v h
    simp [get_username, h]
  · cases hc : cache.lookup user_id with
    | some v => simp [get_username, hc]
    | none =>
      cases hr : remote user_id with
      | found u => simp [get_username, hc, hr, List.lookup]
      | http_error => simp [get_username, hc, hr, List.lookup]

/-- Witness for claim C7: a failing remote on an empty cache. -/
theorem get_username_cache_behavior_witness :
    (([] : List (String × String)).lookup "u9" = none ∧
        (fun _ : String => UserFetch.http_error) "u9" = UserFetch.http_error) ∧
      get_username (fun _ : String => UserFetch.http_error) [] "u9" =
        (("u9", "u9") :: [], "u9", 1) :=
  ⟨⟨rfl, rfl⟩,
    (get_username_cache_behavior (fun _ => UserFetch.http_error) [] "u9").1
      rfl rfl⟩

/-! ### Claim C9: DM display names -/

/-- Claim C9: for a type-D channel the result is always of the form
`"DM with {username}"`, where the resolved id is the first
double-underscore segment of the channel name differing from
`current_user_id`, and — when every segment equals `current_user_id`
(self-DM) — the first segment, i.e. the current user's own id. -/
theorem dm_display_name_resolution (remote : String → UserFetch)
    (cache : List (String × String)) (channel : Channel)
    (current_user_id : String) (hD : channel.type = "D") :
    ∃ chosen : List Char,
      (dm_display_name remote cache channel current_user_id).1 =
          "DM with ".toList ++
            (get_username remote cache (String.mk chosen)).2.1.toList ∧
        (∀ p2, (splitOnSep dmSep channel.name.toList).find?
            (fun q => !(q == current_user_id.toList)) = some p2 →
          chosen = p2) ∧
        ((∀ q ∈ splitOnSep dmSep channel.name.toList,
            q = current_user_id.toList) →
          chosen = current_user_id.toList) := by
  refine ⟨((splitOnSep dmSep channel.name.toList).find?
      (fun q => !(q == current_user_id.toList))).getD
        ((splitOnSep dmSep channel.name.toList).headD []), ?_, ?_, ?_⟩
  · unfold dm_display_name
    rw [if_pos hD]
  · intro p2 hp2
    rw [hp2]
    rfl
  · intro hall
    have hfn : (splitOnSep dmSep channel.name.toList).find?
        (fun q => !(q == current_user_id.toList)) = none := by
      apply List.find?_eq_none.mpr
      intro x hx
      simp [hall x hx]
    rw [hfn]
    simp only [Option.getD_none]
    cases hparts : splitOnSep dmSep channel.name.toList with
    | nil => exact absurd hparts (splitOnSep_ne_nil dmSep channel.name.toList)
    | cons a rest =>
      have ha := hall a (by rw [hparts]; exact List.mem_cons_self a rest)
      simp [ha]

/-- Witness for claim C9: channel `"u1__u2"` viewed by `"u1"`. -/
theorem dm_display_name_resolution_witness :
    (Channel.mk "u1__u2" "" "D").type = "D" ∧
      ∃ chosen : List Char,
        (dm_display_name (fun _ => UserFetch.found (some "alice")) []
            (Channel.mk "u1__u2" "" "D") "u1").1 =
            "DM with ".toList ++
              (get_username (fun _ => UserFetch.found (some "alice")) []
                  (String.mk chosen)).2.1.toList ∧
          (∀ p2, (splitOnSep dmSep (Channel.mk "u1__u2" "" "D").name.toList).find?
              (fun q => !(q == ("u1" : String).toList)) = some p2 →
            chosen = p2) ∧
          ((∀ q ∈ splitOnSep dmSep (Channel.mk "u1__u2" "" "D").name.toList,
              q = ("u1" : String).toList) →
            chosen = ("u1" : String).toList) :=
  ⟨rfl,
    dm_display_name_resolution (fun _ => UserFetch.found (some "alice")) []
      (Channel.mk "u1__u2" "" "D") "u1" rfl⟩

end MattermostTldr
